import Mathlib

/-!
Verification of the StashDB tag-sync reconciliation core
(plugins/stashdb-tag-sync/src): the merge policy, the out-of-sync check,
the conflict detector, the three-stage matcher with its statistics, the
paginated-fetch retry loop, and the external-id attach step, shallowly
embedded as executable Lean definitions translated from the Python source.

Python strings are modelled as Lean String; Python str.strip and str.lower
are modelled charwise; Python sets of strings are modelled as lists used up
to membership, with dedup at construction points, and sorted(...) as an
insertion sort by code points.  Python dicts are association lists whose
lookup takes the first hit and whose insert overwrites in place.  The
store-side effects (GraphQL create/update calls) are oracles: a Boolean
function saying whether the call succeeds, which is all the control flow of
the source observes.
-/

namespace StashSync

/-- Python str.strip: drop whitespace from both ends (charwise model). -/
def pyStrip (s : String) : String :=
  String.mk (((s.data.dropWhile Char.isWhitespace).reverse.dropWhile Char.isWhitespace).reverse)

/-- Python str.lower: charwise lowercasing model. -/
def pyLower (s : String) : String :=
  String.mk (s.data.map Char.toLower)

/-- Lexicographic comparison of char lists by code point, the order Python
uses to sort strings. -/
def charListLe : List Char → List Char → Bool
  | [], _ => true
  | _ :: _, [] => false
  | a :: as, b :: bs =>
    if a.toNat < b.toNat then true
    else if b.toNat < a.toNat then false
    else charListLe as bs

/-- Python string comparison used by sorted(...). -/
def pyLe (a b : String) : Bool :=
  charListLe a.data b.data

/-- Insert a string into a list sorted by pyLe. -/
def ordInsert (a : String) : List String → List String
  | [] => [a]
  | b :: l => if pyLe a b then a :: b :: l else b :: ordInsert a l

/-- Insertion sort by pyLe, the model of Python sorted(...) on strings. -/
def sortStrings : List String → List String
  | [] => []
  | a :: l => ordInsert a (sortStrings l)

/-- Extensional equality of two lists viewed as Python sets. -/
def listSetEq (a b : List String) : Bool :=
  a.all (fun x => decide (x ∈ b)) && b.all (fun x => decide (x ∈ a))

/-- models.py Tag: a tag fetched from StashDB. -/
structure Tag where
  name : String
  description : String
  stash_id : String
  aliases : List String
  category : Option String := none
  url : Option String := none
deriving DecidableEq, Repr

/-- One entry of the stash_ids list of a local tag ({endpoint, stash_id}). -/
structure StashIdRef where
  endpoint : String
  stash_id : String
deriving DecidableEq, Repr

/-- The tag_data dict built by StashClient.find_existing_tags_with_data for
one local Stash tag (description may be absent, hence Option). -/
structure LocalTag where
  id : String
  name : String
  description : Option String
  aliases : List String
  stash_ids : List StashIdRef
deriving DecidableEq, Repr

/-- The lowercased ignore set built at the top of _merge_tag_data and
_has_alias_conflicts: set(a.lower() for a in ignored_aliases). -/
def ignoredSetOf (ignored : List String) : List String :=
  (ignored.map pyLower).dedup

/-- The alias set comprehension of _merge_tag_data: strip each alias, drop
empties and any whose stripped lowercase form is in the ignore set. -/
def filterAliasList (ignoredSet : List String) (l : List String) : List String :=
  (l.filterMap (fun a =>
    let s := pyStrip a
    if s ≠ "" ∧ pyLower s ∉ ignoredSet then some s else none)).dedup

/-- core/tag_transfer.py _merge_tag_data: union the two alias sets minus the
ignore set and sort; prefer the StashDB description when its stripped form
is non-empty, else keep the local one. -/
def mergeTagData (stashdb : Tag) (existing : LocalTag) (ignored : List String) : Tag :=
  let ignoredSet := ignoredSetOf ignored
  let existingAliases := filterAliasList ignoredSet existing.aliases
  let stashdbAliases := filterAliasList ignoredSet stashdb.aliases
  let mergedAliases := sortStrings ((existingAliases ++ stashdbAliases).dedup)
  let existingDesc := pyStrip (existing.description.getD "")
  let stashdbDesc := pyStrip stashdb.description
  let mergedDesc := if stashdbDesc ≠ "" then stashdbDesc else existingDesc
  { name := stashdb.name
    description := mergedDesc
    stash_id := stashdb.stash_id
    aliases := mergedAliases
    category := stashdb.category
    url := stashdb.url }

/-- core/tag_transfer.py _has_alias_conflicts: the aliases of the merged tag
whose lowered-then-stripped form is non-empty, not ignored, and present as a
key of the by-name index. -/
def hasAliasConflicts (merged : Tag) (byName : List (String × LocalTag))
    (ignored : List String) : List String :=
  let ignoredSet := ignoredSetOf ignored
  merged.aliases.filter (fun a =>
    let al := pyStrip (pyLower a)
    decide (al ≠ "" ∧ al ∉ ignoredSet ∧ (List.lookup al byName).isSome))

/-- core/tag_transfer.py _is_tag_out_of_sync: compare the merged description
(stripped), the merged alias set, and whether the remote stash_id is already
among the local stash_ids. -/
def isTagOutOfSync (stashdb : Tag) (existing : LocalTag) (ignored : List String) : Bool :=
  let merged := mergeTagData stashdb existing ignored
  if pyStrip (existing.description.getD "") ≠ pyStrip merged.description then true
  else if !(listSetEq
      (existing.aliases.filterMap (fun a =>
        let s := pyStrip a
        if s ≠ "" then some s else none))
      merged.aliases) then true
  else if stashdb.stash_id ≠ "" ∧
      stashdb.stash_id ∉ existing.stash_ids.map (fun r => r.stash_id) then true
  else false

/-- The local state produced by a successful update for one matched pair,
with the partial-field semantics of update_tags_batch: the name is always
written, but description and aliases are attached to the mutation only when
truthy (the if tag.description / if tag.aliases guards), so a falsy merged
field leaves the local field unchanged; update_tag_stash_ids appends the
remote stash_id with the fixed StashDB endpoint when not yet present. -/
def applyMerge (stashdb : Tag) (existing : LocalTag) (ignored : List String) : LocalTag :=
  let merged := mergeTagData stashdb existing ignored
  { existing with
    name := merged.name
    description :=
      if merged.description ≠ "" then some merged.description else existing.description
    aliases :=
      if merged.aliases ≠ [] then merged.aliases else existing.aliases
    stash_ids :=
      if stashdb.stash_id ≠ "" ∧
          stashdb.stash_id ∉ existing.stash_ids.map (fun r => r.stash_id) then
        existing.stash_ids ++ [⟨"https://stashdb.org/graphql", stashdb.stash_id⟩]
      else existing.stash_ids }

/-- One element of the tags_to_update batch:
(existing_tag id, merged tag, existing stash_ids, stash_id to add). -/
structure UpdateItem where
  id : String
  merged : Tag
  existing_stash_ids : List StashIdRef
  stash_id : String
deriving DecidableEq, Repr

/-- The mutable state of transfer_tags_graphql across stages 1 and 2:
matched_tags, tags_to_update, skipped_tags, failed_tags. -/
structure TState where
  matched : List String
  updates : List UpdateItem
  skipped : Nat
  failed : Nat
deriving DecidableEq, Repr

/-- The state before stage 1. -/
def initTState : TState := ⟨[], [], 0, 0⟩

/-- matched_tags.add(n) on the set of already consumed lowercase names. -/
def addMatched (n : String) (m : List String) : List String :=
  if n ∈ m then m else n :: m

/-- The classify-and-queue block shared verbatim by the stage-1 and stage-2
loop bodies of transfer_tags_graphql: when out of sync, either count an
alias conflict as failed or queue the update tuple. -/
def classifyStep (byName : List (String × LocalTag)) (ignored : List String)
    (st : TState) (t : Tag) (et : LocalTag) : TState :=
  if isTagOutOfSync t et ignored then
    if hasAliasConflicts (mergeTagData t et ignored) byName ignored ≠ [] then
      { st with failed := st.failed + 1 }
    else
      { st with updates :=
          st.updates ++ [⟨et.id, mergeTagData t et ignored, et.stash_ids, t.stash_id⟩] }
  else st

/-- The stage-1 loop body of transfer_tags_graphql: match by stash_id, skip
(and count) blank-named tags, then check sync and conflicts, queue the
update, and mark the remote name consumed. -/
def stage1Step (byName byStashId : List (String × LocalTag)) (ignored : List String)
    (st : TState) (t : Tag) : TState :=
  if t.stash_id = "" then st else
  match List.lookup t.stash_id byStashId with
  | none => st
  | some et =>
    if pyStrip t.name = "" then { st with skipped := st.skipped + 1 }
    else
      let st' := classifyStep byName ignored st t et
      { st' with matched := addMatched (pyLower t.name) st'.matched }

/-- The stage-2 loop body of transfer_tags_graphql: match the remaining tags
by lowercase name against the by-name index. -/
def stage2Step (byName : List (String × LocalTag)) (ignored : List String)
    (st : TState) (t : Tag) : TState :=
  if t.name = "" then st else
  if pyLower t.name ∈ st.matched then st else
  match List.lookup (pyLower t.name) byName with
  | none => st
  | some et =>
    let st' := classifyStep byName ignored st t et
    { st' with matched := addMatched (pyLower t.name) st'.matched }

/-- Stages 1 and 2 of transfer_tags_graphql, each a full pass over the
remote tag list. -/
def runStages (byName byStashId : List (String × LocalTag)) (ignored : List String)
    (tags : List Tag) : TState :=
  tags.foldl (stage2Step byName ignored) (tags.foldl (stage1Step byName byStashId ignored) initTState)

/-- The new_tags list: remote tags with a truthy name not consumed by the
matching stages. -/
def newTagsOf (st : TState) (tags : List Tag) : List Tag :=
  tags.filter (fun t => decide (t.name ≠ "" ∧ pyLower t.name ∉ st.matched))

/-- The stage-3 defensive re-check loop, with Python list-iterator
semantics: the iterator index advances each step against the live list, and
new_tags.remove(tag) deletes the first occurrence equal to tag.  Fuel is the
initial length, which bounds the number of iterations. -/
def stage3Go (byName : List (String × LocalTag)) : Nat → Nat → List Tag → List Tag
  | 0, _, l => l
  | fuel + 1, i, l =>
    if h : i < l.length then
      let t := l.get ⟨i, h⟩
      if (List.lookup (pyLower t.name) byName).isSome then
        stage3Go byName fuel (i + 1) (l.erase t)
      else
        stage3Go byName fuel (i + 1) l
    else l

/-- The stage-3 re-check applied to a candidate list. -/
def stage3Recheck (byName : List (String × LocalTag)) (l : List Tag) : List Tag :=
  stage3Go byName l.length 0 l

/-- Python dict insertion: overwrite the value in place if the key exists,
else append the pair. -/
def dictInsert {β : Type} (k : String) (v : β) (d : List (String × β)) : List (String × β) :=
  if d.any (fun p => p.1 == k) then d.map (fun p => if p.1 == k then (k, v) else p)
  else d ++ [(k, v)]

/-- stash_client.py create_tags_batch: skip blank-named tags, attempt each
create, and record successes in a dict keyed by lowercase name.  The
createOk oracle says whether the store call succeeds and returns an id. -/
def createTagsBatch (createOk : Tag → Bool) (tags : List Tag) : List (String × String) :=
  tags.foldl (fun d t =>
    if pyStrip t.name = "" then d
    else if createOk t then dictInsert (pyLower t.name) "created-id" d
    else d) []

/-- stash_client.py update_tags_batch, counting view: one primary update
call per item, counted when the store call succeeds (the updateOk oracle);
a failing item is logged and the loop continues. -/
def updateTagsBatch (updateOk : Nat → UpdateItem → Bool) (items : List UpdateItem) : Nat :=
  (items.enum.countP fun p => updateOk p.1 p.2)

/-- The statistics dict returned by transfer_tags_graphql. -/
structure Stats where
  created : Nat
  updated : Nat
  skipped : Nat
  failed : Nat
  total : Nat
deriving DecidableEq, Repr

/-- The stage-3 create-candidate list after the defensive re-check. -/
def creationCandidates (byName byStashId : List (String × LocalTag)) (ignored : List String)
    (tags : List Tag) : List Tag :=
  stage3Recheck byName (newTagsOf (runStages byName byStashId ignored tags) tags)

/-- core/tag_transfer.py transfer_tags_graphql: three-stage matching, then
the create batch and the update batch, with the final statistics.  created
is the size of the dict of successful creates, failed adds the update-batch
failures to the conflict failures, total is the remote list length. -/
def transferTagsGraphql (byName byStashId : List (String × LocalTag)) (ignored : List String)
    (createOk : Tag → Bool) (updateOk : Nat → UpdateItem → Bool) (tags : List Tag) : Stats :=
  let st := runStages byName byStashId ignored tags
  let createdCount := (createTagsBatch createOk (creationCandidates byName byStashId ignored tags)).length
  let updatedCount := updateTagsBatch updateOk st.updates
  { created := createdCount
    updated := updatedCount
    skipped := st.skipped
    failed := st.failed + (st.updates.length - updatedCount)
    total := tags.length }

/-- stash_client.py find_existing_tags_with_data, index construction: one
pass over the local tags, keying the name index by lowercase name and the
stash_id index by every non-empty stash_id the tag carries. -/
def buildLocalIndices (localTags : List LocalTag) :
    List (String × LocalTag) × List (String × LocalTag) :=
  localTags.foldl (fun acc t =>
    (dictInsert (pyLower t.name) t acc.1,
     t.stash_ids.foldl (fun m sid =>
       if sid.stash_id ≠ "" then dictInsert sid.stash_id t m else m) acc.2)) ([], [])

/-- stash_client.py find_existing_tags_with_data, failure path included: a
failed read of the local store (readResult = none) is caught and turned
into a pair of empty indices. -/
def findExistingTagsWithData (readResult : Option (List LocalTag)) :
    List (String × LocalTag) × List (String × LocalTag) :=
  match readResult with
  | some l => buildLocalIndices l
  | none => ([], [])

/-- The reconciliation run as wired in transfer_tags_graphql: read the local
store (or fail), build the indices, and transfer. -/
def runTransferWithRead (readResult : Option (List LocalTag)) (ignored : List String)
    (createOk : Tag → Bool) (updateOk : Nat → UpdateItem → Bool) (tags : List Tag) : Stats :=
  let idx := findExistingTagsWithData readResult
  transferTagsGraphql idx.1 idx.2 ignored createOk updateOk tags

/-- What one attempt of graphql_client.py _execute_query observes. -/
inductive FetchOutcome where
  /-- HTTP success and a JSON body without an errors key. -/
  | success : FetchOutcome
  /-- requests Timeout or ConnectionError. -/
  | transient : FetchOutcome
  /-- A structured GraphQL error payload in the response body. -/
  | graphqlError : FetchOutcome
  /-- Any other RequestException (e.g. a bad HTTP status). -/
  | requestError : FetchOutcome
deriving DecidableEq, Repr

/-- How _execute_query ends. -/
inductive ExecResult where
  /-- Returned the data field. -/
  | ok : ExecResult
  /-- Raised ValueError on a structured GraphQL error payload. -/
  | fatalGraphql : ExecResult
  /-- Re-raised a non-transient RequestException. -/
  | fatalRequest : ExecResult
  /-- Re-raised a transient error after the last attempt. -/
  | exhausted : ExecResult
deriving DecidableEq, Repr

/-- The retry loop of _execute_query: at attempt a (0-based, remaining
attempts r), a transient error sleeps base_delay * 2 ^ a and retries while
attempts remain; anything else ends the loop at once.  Returns the result
and the list of delays slept. -/
def execGo (outcomes : Nat → FetchOutcome) : Nat → Nat → ExecResult × List Nat
  | _, 0 => (.exhausted, [])
  | a, r + 1 =>
    match outcomes a with
    | .success => (.ok, [])
    | .graphqlError => (.fatalGraphql, [])
    | .requestError => (.fatalRequest, [])
    | .transient =>
      if r = 0 then (.exhausted, [])
      else
        let rest := execGo outcomes (a + 1) r
        (rest.1, (1 * 2 ^ a) :: rest.2)

/-- graphql_client.py _execute_query with max_retries = 3, base_delay = 1. -/
def executeQuery (outcomes : Nat → FetchOutcome) : ExecResult × List Nat :=
  execGo outcomes 0 3

/-- stash_client.py update_tags_batch lines 289-309: the stash_ids list
submitted to update_tag_stash_ids for one item, when a stash_id has to be
attached: the existing references unchanged, plus the new one carrying the
fixed endpoint string; nothing is submitted when the id is already present
or empty. -/
def submittedStashIds (existing_stash_ids : List StashIdRef) (stash_id : String) :
    Option (List StashIdRef) :=
  if stash_id = "" then none
  else if stash_id ∈ existing_stash_ids.map (fun r => r.stash_id) then none
  else some (existing_stash_ids ++ [⟨"https://stashdb.org/graphql", stash_id⟩])

/-- The skip/fail/update bucket total of a transfer state. -/
def bucketCount (st : TState) : Nat :=
  st.skipped + st.failed + st.updates.length

/-- A remote tag that stage 1 matches by stash_id. -/
def stashMatchedB (byStashId : List (String × LocalTag)) (t : Tag) : Bool :=
  !(t.stash_id == "") && (List.lookup t.stash_id byStashId).isSome

/-- A remote tag that stage 1 skips: stash-matched with a blank name. -/
def skipPredB (byStashId : List (String × LocalTag)) (t : Tag) : Bool :=
  stashMatchedB byStashId t && (pyStrip t.name == "")

/-- A remote tag that stage 2 would take up against a given consumed set. -/
def nameEligibleB (byName : List (String × LocalTag)) (m : List String) (t : Tag) : Bool :=
  !(t.name == "") && !(decide (pyLower t.name ∈ m)) && (List.lookup (pyLower t.name) byName).isSome

/-- Scenario: a local tag already in sync with its remote counterpart. -/
def locInSync : LocalTag := ⟨"1", "A", some "", [], [⟨"e", "S"⟩]⟩

/-- Scenario: the remote counterpart of locInSync. -/
def tagInSync : Tag := ⟨"A", "", "S", [], none, none⟩

/-- Scenario: a local tag reachable both by stash_id S and by its name. -/
def locBooty : LocalTag := ⟨"1", "Booty", some "", [], []⟩

/-- Scenario: a local tag whose remote version lists its own name as alias. -/
def locFooSelf : LocalTag := ⟨"1", "Foo", some "", [], []⟩

/-- Scenario: the local tag carrying stash_id S for the blank-name case. -/
def locBlankA : LocalTag := ⟨"1", "A", some "", [], [⟨"e", "S"⟩]⟩

/-- Scenario: a local tag whose name is a single space. -/
def locBlankB : LocalTag := ⟨"2", " ", some "", [], []⟩

/-- Scenario: local tag named A, for the stage-3 re-check. -/
def locA9 : LocalTag := ⟨"1", "A", some "", [], []⟩

/-- Scenario: local tag named B, for the stage-3 re-check. -/
def locB9 : LocalTag := ⟨"2", "B", some "", [], []⟩

end StashSync

namespace StashSync

/-- Claim C8: for every page request, a timeout or connection failure is retried
with a per-attempt delay that doubles from base delay 1 up to the attempt
limit of 3, after which the fetch fails; a structured GraphQL error payload
is never retried and fails the whole fetch immediately. -/
theorem c8_retry_backoff (outcomes : Nat → FetchOutcome) :
    ((∀ i, i < 3 → outcomes i = .transient) →
      executeQuery outcomes = (.exhausted, [1, 2])) ∧
    (∀ k, k < 3 → (∀ i, i < k → outcomes i = .transient) →
      outcomes k = .graphqlError →
      executeQuery outcomes = (.fatalGraphql, (List.range k).map (fun i => 2 ^ i))) := by
  constructor
  · intro h
    have h0 := h 0 (by omega)
    have h1 := h 1 (by omega)
    have h2 := h 2 (by omega)
    simp [executeQuery, execGo, h0, h1, h2]
  · intro k hk hpre hke
    interval_cases k
    · simp [executeQuery, execGo, hke]
    · have h0 := hpre 0 (by omega)
      simp [executeQuery, execGo, h0, hke]
      decide
    · have h0 := hpre 0 (by omega)
      have h1 := hpre 1 (by omega)
      simp [executeQuery, execGo, h0, h1, hke]
      decide

/-- Witness for c8_retry_backoff at the all-transient oracle. -/
theorem c8_retry_backoff_witness :
    executeQuery (fun _ => .transient) = (.exhausted, [1, 2]) :=
  (c8_retry_backoff (fun _ => .transient)).1 (fun _ _ => rfl)

/-- Claim C10: when the new external id is not already present, the appended
external-id reference carries the fixed endpoint string
https://stashdb.org/graphql, and every pre-existing entry is included
unchanged before it. -/
theorem c10_fixed_endpoint (existing : List StashIdRef) (sid : String)
    (h1 : sid ≠ "") (h2 : sid ∉ existing.map (fun r => r.stash_id)) :
    submittedStashIds existing sid =
      some (existing ++ [⟨"https://stashdb.org/graphql", sid⟩]) := by
  simp [submittedStashIds, h1, h2]

/-- Witness for c10_fixed_endpoint: an entry from another endpoint is kept
unchanged and the new reference carries the fixed endpoint. -/
theorem c10_fixed_endpoint_witness :
    submittedStashIds [⟨"https://other.example/graphql", "X"⟩] "S" =
      some [⟨"https://other.example/graphql", "X"⟩, ⟨"https://stashdb.org/graphql", "S"⟩] :=
  c10_fixed_endpoint [⟨"https://other.example/graphql", "X"⟩] "S" (by decide) (by decide)

/-- Claim C9 evidence: on two consecutive candidates whose names are both keys of
the name index, the remove-during-iteration loop drops only the first; the
second survives the re-check and is submitted to the create call even
though its name already exists in the index. -/
theorem c9_recheck_skips_consecutive :
    stage3Recheck [("a", locA9), ("b", locB9)]
        [⟨"A", "", "", [], none, none⟩, ⟨"B", "", "", [], none, none⟩] =
      [⟨"B", "", "", [], none, none⟩] ∧
    (List.lookup (pyLower "B") [("a", locA9), ("b", locB9)]).isSome = true := by decide

/-- Claim C5 counterexample: with the local read failed (readResult = none) the
run does not abort: it proceeds against the empty indices and creates the
remote tag. -/
theorem c5_read_failure_counterexample :
    (runTransferWithRead none [] (fun _ => true) (fun _ _ => true)
      [⟨"X", "", "", [], none, none⟩]).created = 1 := by decide

/-- Claim C1 counterexample: one remote tag already in sync with its local match
falls in no bucket, so created + updated + skipped + failed = 0 while
total = 1. -/
theorem c1_sum_counterexample :
    (transferTagsGraphql [("a", locInSync)] [("S", locInSync)] []
        (fun _ => true) (fun _ _ => true) [tagInSync]).created +
      (transferTagsGraphql [("a", locInSync)] [("S", locInSync)] []
        (fun _ => true) (fun _ _ => true) [tagInSync]).updated +
      (transferTagsGraphql [("a", locInSync)] [("S", locInSync)] []
        (fun _ => true) (fun _ _ => true) [tagInSync]).skipped +
      (transferTagsGraphql [("a", locInSync)] [("S", locInSync)] []
        (fun _ => true) (fun _ _ => true) [tagInSync]).failed = 0 ∧
    (transferTagsGraphql [("a", locInSync)] [("S", locInSync)] []
        (fun _ => true) (fun _ _ => true) [tagInSync]).total = 1 := by decide

/-- Claim C3 counterexample: remote tag Anal matches local id 1 by stash_id in
stage 1 (consuming the name anal, not the local name booty), then remote
tag Booty matches the same local entity by name in stage 2, so id 1 appears
twice in one update batch. -/
theorem c3_duplicate_id_counterexample :
    ((runStages [("booty", locBooty)] [("S", locBooty)] []
        [⟨"Anal", "d", "S", [], none, none⟩, ⟨"Booty", "d2", "", [], none, none⟩]).updates.map
      (fun u => u.id)) = ["1", "1"] ∧
    ¬ ((runStages [("booty", locBooty)] [("S", locBooty)] []
        [⟨"Anal", "d", "S", [], none, none⟩, ⟨"Booty", "d2", "", [], none, none⟩]).updates.map
      (fun u => u.id)).Nodup := by decide

/-- Claim C6 counterexample: a merged tag whose alias list contains its own name
(present in the name index as the very entity being updated) is reported as
a conflict and the update is blocked and counted as failed. -/
theorem c6_self_name_counterexample :
    hasAliasConflicts (mergeTagData ⟨"Foo", "", "", ["Foo"], none, none⟩ locFooSelf [])
        [("foo", locFooSelf)] [] = ["Foo"] ∧
    (runStages [("foo", locFooSelf)] [] [] [⟨"Foo", "", "", ["Foo"], none, none⟩]).failed = 1 ∧
    (runStages [("foo", locFooSelf)] [] [] [⟨"Foo", "", "", ["Foo"], none, none⟩]).updates = [] := by
  decide

/-- Claim C7 counterexample: a remote tag with a whitespace-only name whose
stash_id matches a local entity is counted under skipped, yet stage 2 still
matches it by name against a space-named local tag and issues an update,
and (without such a name match) it still enters the stage-3 create
candidates. -/
theorem c7_blank_name_counterexample :
    (runStages [(" ", locBlankB)] [("S", locBlankA)] []
        [⟨" ", "d", "S", [], none, none⟩]).skipped = 1 ∧
    ((runStages [(" ", locBlankB)] [("S", locBlankA)] []
        [⟨" ", "d", "S", [], none, none⟩]).updates.map (fun u => u.id)) = ["2"] ∧
    creationCandidates [] [("S", locBlankA)] [] [⟨" ", "d", "S", [], none, none⟩] =
      [⟨" ", "d", "S", [], none, none⟩] := by decide

theorem charListLe_total (x y : List Char) : charListLe x y = true ∨ charListLe y x = true := by
  induction x generalizing y with
  | nil => left; rfl
  | cons a as ih =>
    cases y with
    | nil => right; rfl
    | cons b bs =>
      by_cases h1 : a.toNat < b.toNat
      · left; simp [charListLe, h1]
      · by_cases h2 : b.toNat < a.toNat
        · right; simp [charListLe, h1, h2]
        · rcases ih bs with h | h
          · left; simp [charListLe, h1, h2, h]
          · right; simp [charListLe, h1, h2, h]

theorem charListLe_trans (x : List Char) : ∀ y z : List Char,
    charListLe x y = true → charListLe y z = true → charListLe x z = true := by
  induction x with
  | nil => intro y z _ _; rfl
  | cons a as ih =>
    intro y z h1 h2
    cases y with
    | nil => simp [charListLe] at h1
    | cons b bs =>
      cases z with
      | nil => simp [charListLe] at h2
      | cons c cs =>
        by_cases hab : a.toNat < b.toNat
        · by_cases hbc : b.toNat < c.toNat
          · have hac : a.toNat < c.toNat := by omega
            simp [charListLe, hac]
          · by_cases hcb : c.toNat < b.toNat
            · simp [charListLe, hbc, hcb] at h2
            · have hac : a.toNat < c.toNat := by omega
              simp [charListLe, hac]
        · by_cases hba : b.toNat < a.toNat
          · simp [charListLe, hab, hba] at h1
          · simp [charListLe, hab, hba] at h1
            by_cases hbc : b.toNat < c.toNat
            · have hac : a.toNat < c.toNat := by omega
              simp [charListLe, hac]
            · by_cases hcb : c.toNat < b.toNat
              · simp [charListLe, hbc, hcb] at h2
              · simp [charListLe, hbc, hcb] at h2
                have hac1 : ¬ a.toNat < c.toNat := by omega
                have hac2 : ¬ c.toNat < a.toNat := by omega
                simp [charListLe, hac1, hac2]
                exact ih bs cs h1 h2

theorem pyLe_total (a b : String) : pyLe a b = true ∨ pyLe b a = true :=
  charListLe_total a.data b.data

theorem pyLe_trans (a b c : String) :
    pyLe a b = true → pyLe b c = true → pyLe a c = true :=
  charListLe_trans a.data b.data c.data

theorem mem_ordInsert (x a : String) (l : List String) :
    x ∈ ordInsert a l ↔ x = a ∨ x ∈ l := by
  induction l with
  | nil => simp [ordInsert]
  | cons b t ih =>
    by_cases h : pyLe a b = true
    · simp [ordInsert, h]
    · simp [ordInsert, h, ih]
      tauto

theorem ordInsert_perm (a : String) (l : List String) :
    (ordInsert a l).Perm (a :: l) := by
  induction l with
  | nil => exact List.Perm.refl _
  | cons b t ih =>
    by_cases h : pyLe a b = true
    · simp [ordInsert, h]
    · simp only [ordInsert, h, Bool.false_eq_true, if_false]
      exact (ih.cons b).trans (List.Perm.swap a b t)

theorem sortStrings_perm (l : List String) : (sortStrings l).Perm l := by
  induction l with
  | nil => exact List.Perm.refl _
  | cons a t ih =>
    exact (ordInsert_perm a (sortStrings t)).trans (ih.cons a)

theorem mem_sortStrings (x : String) (l : List String) :
    x ∈ sortStrings l ↔ x ∈ l :=
  (sortStrings_perm l).mem_iff

theorem ordInsert_pairwise (a : String) (l : List String)
    (h : l.Pairwise (fun x y => pyLe x y = true)) :
    (ordInsert a l).Pairwise (fun x y => pyLe x y = true) := by
  induction l with
  | nil => simp [ordInsert]
  | cons b t ih =>
    rcases List.pairwise_cons.mp h with ⟨hb, ht⟩
    by_cases hab : pyLe a b = true
    · simp only [ordInsert, hab, if_true]
      refine List.pairwise_cons.mpr ⟨?_, h⟩
      intro x hx
      rcases List.mem_cons.mp hx with rfl | hx
      · exact hab
      · exact pyLe_trans a b x hab (hb x hx)
    · simp only [ordInsert, hab, Bool.false_eq_true, if_false]
      refine List.pairwise_cons.mpr ⟨?_, ih ht⟩
      intro x hx
      rcases (mem_ordInsert x a t).mp hx with hxa | hx
      · rcases pyLe_total a b with h' | h'
        · exact absurd h' hab
        · rw [hxa]; exact h'
      · exact hb x hx

theorem sortStrings_pairwise (l : List String) :
    (sortStrings l).Pairwise (fun x y => pyLe x y = true) := by
  induction l with
  | nil => simp [sortStrings]
  | cons a t ih => exact ordInsert_pairwise a (sortStrings t) ih

theorem dropWhile_idem {α : Type} (p : α → Bool) (l : List α) :
    (l.dropWhile p).dropWhile p = l.dropWhile p := by
  induction l with
  | nil => rfl
  | cons a t ih =>
    by_cases h : p a = true
    · simp [List.dropWhile_cons, h, ih]
    · simp [List.dropWhile_cons, h]

theorem dropWhile_head_false {α : Type} (p : α → Bool) (l : List α) (a : α) (t : List α)
    (h : l.dropWhile p = a :: t) : p a = false := by
  induction l with
  | nil => simp [List.dropWhile] at h
  | cons x xs ih =>
    rw [List.dropWhile_cons] at h
    by_cases hx : p x = true
    · rw [if_pos hx] at h
      exact ih h
    · rw [if_neg hx] at h
      cases h
      simpa using hx

theorem dropWhile_append_sing {α : Type} (p : α → Bool) (xs : List α) (a : α)
    (ha : p a = false) : (xs ++ [a]).dropWhile p = xs.dropWhile p ++ [a] := by
  induction xs with
  | nil => simp [List.dropWhile_cons, ha]
  | cons x t ih =>
    by_cases hx : p x = true
    · simp [List.dropWhile_cons, hx, ih]
    · simp [List.dropWhile_cons, hx]

theorem trimChars_idem (w : Char → Bool) (l : List Char) :
    ((((((l.dropWhile w).reverse.dropWhile w).reverse).dropWhile w).reverse.dropWhile w).reverse) =
      ((l.dropWhile w).reverse.dropWhile w).reverse := by
  have hC : (((l.dropWhile w).reverse.dropWhile w)).dropWhile w =
      ((l.dropWhile w).reverse.dropWhile w) := dropWhile_idem w _
  have hrev : ((((l.dropWhile w).reverse.dropWhile w).reverse)).dropWhile w =
      (((l.dropWhile w).reverse.dropWhile w).reverse) := by
    cases hA : l.dropWhile w with
    | nil => simp [hA]
    | cons a t =>
      have hpa : w a = false := dropWhile_head_false w l a t hA
      rw [List.reverse_cons, dropWhile_append_sing w t.reverse a hpa,
        List.reverse_append]
      simp [List.dropWhile_cons, hpa]
  rw [hrev, List.reverse_reverse, hC]

theorem pyStrip_idem (s : String) : pyStrip (pyStrip s) = pyStrip s :=
  congrArg String.mk (trimChars_idem Char.isWhitespace s.data)

theorem listSetEq_eq_true (a b : List String) :
    listSetEq a b = true ↔ (∀ x ∈ a, x ∈ b) ∧ (∀ x ∈ b, x ∈ a) := by
  simp [listSetEq, List.all_eq_true]

theorem filterMap_some_self {α : Type} (f : α → Option α) (l : List α)
    (h : ∀ a ∈ l, f a = some a) : l.filterMap f = l := by
  induction l with
  | nil => rfl
  | cons a t ih =>
    rw [List.filterMap_cons, h a (List.mem_cons_self a t),
      ih (fun b hb => h b (List.mem_cons_of_mem a hb))]

theorem mem_filterAliasList (ig : List String) (l : List String) (a : String) :
    a ∈ filterAliasList ig l ↔
      ∃ b ∈ l, pyStrip b = a ∧ a ≠ "" ∧ pyLower a ∉ ig := by
  unfold filterAliasList
  rw [List.mem_dedup, List.mem_filterMap]
  constructor
  · rintro ⟨b, hb, hfb⟩
    simp only at hfb
    by_cases hc : pyStrip b ≠ "" ∧ pyLower (pyStrip b) ∉ ig
    · rw [if_pos hc] at hfb
      cases hfb
      exact ⟨b, hb, rfl, hc.1, hc.2⟩
    · rw [if_neg hc] at hfb
      cases hfb
  · rintro ⟨b, hb, hba, ha, hig⟩
    refine ⟨b, hb, ?_⟩
    simp only
    rw [hba, if_pos ⟨ha, hig⟩]

theorem mergeTagData_aliases_def (stashdb : Tag) (existing : LocalTag) (ignored : List String) :
    (mergeTagData stashdb existing ignored).aliases =
      sortStrings ((filterAliasList (ignoredSetOf ignored) existing.aliases ++
        filterAliasList (ignoredSetOf ignored) stashdb.aliases).dedup) := rfl

theorem mergeTagData_name (stashdb : Tag) (existing : LocalTag) (ignored : List String) :
    (mergeTagData stashdb existing ignored).name = stashdb.name := rfl

theorem pyStrip_empty : pyStrip "" = "" := rfl

theorem bucketCount_set_matched (st : TState) (m : List String) :
    bucketCount { st with matched := m } = bucketCount st := rfl

theorem classifyStep_matched (bn : List (String × LocalTag)) (ig : List String)
    (st : TState) (t : Tag) (et : LocalTag) :
    (classifyStep bn ig st t et).matched = st.matched := by
  unfold classifyStep
  split_ifs <;> rfl

theorem classifyStep_skipped (bn : List (String × LocalTag)) (ig : List String)
    (st : TState) (t : Tag) (et : LocalTag) :
    (classifyStep bn ig st t et).skipped = st.skipped := by
  unfold classifyStep
  split_ifs <;> rfl

theorem classifyStep_updates_cases (bn : List (String × LocalTag)) (ig : List String)
    (st : TState) (t : Tag) (et : LocalTag) :
    (classifyStep bn ig st t et).updates = st.updates ∨
    (classifyStep bn ig st t et).updates =
      st.updates ++ [⟨et.id, mergeTagData t et ig, et.stash_ids, t.stash_id⟩] := by
  unfold classifyStep
  split_ifs
  · left; rfl
  · right; rfl
  · left; rfl

theorem classifyStep_bucket (bn : List (String × LocalTag)) (ig : List String)
    (st : TState) (t : Tag) (et : LocalTag) :
    bucketCount (classifyStep bn ig st t et) ≤ bucketCount st + 1 := by
  unfold classifyStep bucketCount
  split_ifs <;> simp <;> omega

theorem mem_addMatched (x n : String) (m : List String) :
    x ∈ addMatched n m ↔ x = n ∨ x ∈ m := by
  unfold addMatched
  split_ifs with h
  · constructor
    · exact Or.inr
    · rintro (rfl | hx)
      · exact h
      · exact hx
  · exact List.mem_cons

theorem addMatched_sub (n : String) (m : List String) :
    ∀ x ∈ m, x ∈ addMatched n m :=
  fun x hx => (mem_addMatched x n m).mpr (Or.inr hx)

theorem self_mem_addMatched (n : String) (m : List String) : n ∈ addMatched n m :=
  (mem_addMatched n n m).mpr (Or.inl rfl)

theorem stage1Step_cases (bn bs : List (String × LocalTag)) (ig : List String)
    (st : TState) (t : Tag) :
    (stashMatchedB bs t = false ∧ stage1Step bn bs ig st t = st) ∨
    (skipPredB bs t = true ∧ stage1Step bn bs ig st t = { st with skipped := st.skipped + 1 }) ∨
    (stashMatchedB bs t = true ∧ pyStrip t.name ≠ "" ∧
      ∃ et, List.lookup t.stash_id bs = some et ∧
        stage1Step bn bs ig st t =
          { classifyStep bn ig st t et with
              matched := addMatched (pyLower t.name) (classifyStep bn ig st t et).matched }) := by
  unfold stage1Step
  by_cases h1 : t.stash_id = ""
  · rw [if_pos h1]
    exact Or.inl ⟨by simp [stashMatchedB, h1], rfl⟩
  · rw [if_neg h1]
    cases hlk : List.lookup t.stash_id bs with
    | none => exact Or.inl ⟨by simp [stashMatchedB, hlk], rfl⟩
    | some et =>
      dsimp only
      by_cases h2 : pyStrip t.name = ""
      · rw [if_pos h2]
        exact Or.inr (Or.inl ⟨by simp [skipPredB, stashMatchedB, h1, hlk, h2], rfl⟩)
      · rw [if_neg h2]
        exact Or.inr (Or.inr ⟨by simp [stashMatchedB, h1, hlk], h2, et, rfl, rfl⟩)

theorem stage1Step_skipped (bn bs : List (String × LocalTag)) (ig : List String)
    (st : TState) (t : Tag) :
    (stage1Step bn bs ig st t).skipped =
      st.skipped + (if skipPredB bs t = true then 1 else 0) := by
  rcases stage1Step_cases bn bs ig st t with ⟨hm, heq⟩ | ⟨hp, heq⟩ | ⟨hm, hn, et, hlk, heq⟩
  · rw [heq]
    have hp : skipPredB bs t = false := by simp [skipPredB, hm]
    rw [hp]
    simp
  · rw [heq, hp]
    simp
  · rw [heq]
    have hp : skipPredB bs t = false := by simp [skipPredB, hm, hn]
    rw [hp]
    show (classifyStep bn ig st t et).skipped = st.skipped + 0
    rw [classifyStep_skipped, Nat.add_zero]

theorem stage1Step_matched_sub (bn bs : List (String × LocalTag)) (ig : List String)
    (st : TState) (t : Tag) :
    ∀ x ∈ st.matched, x ∈ (stage1Step bn bs ig st t).matched := by
  rcases stage1Step_cases bn bs ig st t with ⟨_, heq⟩ | ⟨_, heq⟩ | ⟨_, _, et, _, heq⟩ <;>
    rw [heq] <;> intro x hx
  · exact hx
  · exact hx
  · show x ∈ addMatched (pyLower t.name) (classifyStep bn ig st t et).matched
    rw [classifyStep_matched]
    exact addMatched_sub _ _ x hx

theorem stage1Step_bucket (bn bs : List (String × LocalTag)) (ig : List String)
    (st : TState) (t : Tag) :
    bucketCount (stage1Step bn bs ig st t) ≤
      bucketCount st + (if stashMatchedB bs t = true then 1 else 0) := by
  rcases stage1Step_cases bn bs ig st t with ⟨hm, heq⟩ | ⟨hp, heq⟩ | ⟨hm, _, et, _, heq⟩
  · rw [heq, hm]
    simp
  · rw [heq]
    have hm : stashMatchedB bs t = true := by
      have := hp
      simp [skipPredB, Bool.and_eq_true] at this
      exact this.1
    rw [hm]
    show st.skipped + 1 + st.failed + st.updates.length ≤
      st.skipped + st.failed + st.updates.length + 1
    omega
  · rw [heq, hm, bucketCount_set_matched]
    simpa using classifyStep_bucket bn ig st t et

theorem stage1Step_mark (bn bs : List (String × LocalTag)) (ig : List String)
    (st : TState) (t : Tag) (hm : stashMatchedB bs t = true) (hn : pyStrip t.name ≠ "") :
    pyLower t.name ∈ (stage1Step bn bs ig st t).matched := by
  rcases stage1Step_cases bn bs ig st t with ⟨hf, _⟩ | ⟨hp, _⟩ | ⟨_, _, et, _, heq⟩
  · rw [hm] at hf; cases hf
  · exfalso
    simp [skipPredB, Bool.and_eq_true] at hp
    exact hn hp.2
  · rw [heq]
    exact self_mem_addMatched _ _

theorem stage1Step_names (bn bs : List (String × LocalTag)) (ig : List String)
    (st : TState) (t : Tag)
    (h : ∀ it ∈ st.updates, it.merged.name ≠ "") :
    ∀ it ∈ (stage1Step bn bs ig st t).updates, it.merged.name ≠ "" := by
  rcases stage1Step_cases bn bs ig st t with ⟨_, heq⟩ | ⟨_, heq⟩ | ⟨_, hn, et, _, heq⟩ <;> rw [heq]
  · exact h
  · exact h
  · show ∀ it ∈ (classifyStep bn ig st t et).updates, it.merged.name ≠ ""
    intro it hit
    rcases classifyStep_updates_cases bn ig st t et with hc | hc
    · rw [hc] at hit
      exact h it hit
    · rw [hc] at hit
      rcases List.mem_append.mp hit with hold | hnew
      · exact h it hold
      · rcases List.mem_singleton.mp hnew with rfl
        show (mergeTagData t et ig).name ≠ ""
        rw [mergeTagData_name]
        intro he
        exact hn (by rw [he]; rfl)

theorem stage1_fold_matched_sub (bn bs : List (String × LocalTag)) (ig : List String)
    (ts : List Tag) :
    ∀ st, ∀ x ∈ st.matched, x ∈ (ts.foldl (stage1Step bn bs ig) st).matched := by
  induction ts with
  | nil => intro st x hx; exact hx
  | cons t ts ih =>
    intro st x hx
    exact ih _ x (stage1Step_matched_sub bn bs ig st t x hx)

theorem stage1_fold_skipped (bn bs : List (String × LocalTag)) (ig : List String)
    (ts : List Tag) :
    ∀ st, (ts.foldl (stage1Step bn bs ig) st).skipped =
      st.skipped + ts.countP (skipPredB bs) := by
  induction ts with
  | nil => intro st; simp
  | cons t ts ih =>
    intro st
    rw [List.foldl_cons, ih, stage1Step_skipped, List.countP_cons]
    split_ifs <;> omega

theorem stage1_fold_bucket (bn bs : List (String × LocalTag)) (ig : List String)
    (ts : List Tag) :
    ∀ st, bucketCount (ts.foldl (stage1Step bn bs ig) st) ≤
      bucketCount st + ts.countP (stashMatchedB bs) := by
  induction ts with
  | nil => intro st; simp
  | cons t ts ih =>
    intro st
    rw [List.foldl_cons, List.countP_cons]
    have hstep := stage1Step_bucket bn bs ig st t
    have hih := ih (stage1Step bn bs ig st t)
    split_ifs at hstep ⊢ <;> omega

theorem stage1_fold_names (bn bs : List (String × LocalTag)) (ig : List String)
    (ts : List Tag) :
    ∀ st, (∀ it ∈ st.updates, it.merged.name ≠ "") →
      ∀ it ∈ (ts.foldl (stage1Step bn bs ig) st).updates, it.merged.name ≠ "" := by
  induction ts with
  | nil => intro st h; exact h
  | cons t ts ih =>
    intro st h
    exact ih _ (stage1Step_names bn bs ig st t h)

theorem stage1_fold_mark (bn bs : List (String × LocalTag)) (ig : List String)
    (ts : List Tag) :
    ∀ st, ∀ t ∈ ts, stashMatchedB bs t = true → pyStrip t.name ≠ "" →
      pyLower t.name ∈ (ts.foldl (stage1Step bn bs ig) st).matched := by
  induction ts with
  | nil => intro st t ht; cases ht
  | cons u ts ih =>
    intro st t ht hm hn
    rcases List.mem_cons.mp ht with rfl | ht
    · exact stage1_fold_matched_sub bn bs ig ts _ _ (stage1Step_mark bn bs ig st t hm hn)
    · exact ih _ t ht hm hn

theorem stage2Step_cases (bn : List (String × LocalTag)) (ig : List String)
    (st : TState) (t : Tag) :
    (nameEligibleB bn st.matched t = false ∧ stage2Step bn ig st t = st) ∨
    (nameEligibleB bn st.matched t = true ∧
      ∃ et, List.lookup (pyLower t.name) bn = some et ∧
        stage2Step bn ig st t =
          { classifyStep bn ig st t et with
              matched := addMatched (pyLower t.name) (classifyStep bn ig st t et).matched }) := by
  unfold stage2Step
  by_cases h1 : t.name = ""
  · rw [if_pos h1]
    exact Or.inl ⟨by simp [nameEligibleB, h1], rfl⟩
  · rw [if_neg h1]
    by_cases h2 : pyLower t.name ∈ st.matched
    · rw [if_pos h2]
      exact Or.inl ⟨by simp [nameEligibleB, h2], rfl⟩
    · rw [if_neg h2]
      cases hlk : List.lookup (pyLower t.name) bn with
      | none => exact Or.inl ⟨by simp [nameEligibleB, hlk], rfl⟩
      | some et =>
        exact Or.inr ⟨by simp [nameEligibleB, h1, h2, hlk], et, rfl, rfl⟩

theorem stage2Step_skipped (bn : List (String × LocalTag)) (ig : List String)
    (st : TState) (t : Tag) :
    (stage2Step bn ig st t).skipped = st.skipped := by
  rcases stage2Step_cases bn ig st t with ⟨_, heq⟩ | ⟨_, et, _, heq⟩ <;> rw [heq]
  show (classifyStep bn ig st t et).skipped = st.skipped
  rw [classifyStep_skipped]

theorem stage2Step_matched_sub (bn : List (String × LocalTag)) (ig : List String)
    (st : TState) (t : Tag) :
    ∀ x ∈ st.matched, x ∈ (stage2Step bn ig st t).matched := by
  rcases stage2Step_cases bn ig st t with ⟨_, heq⟩ | ⟨_, et, _, heq⟩ <;> rw [heq] <;> intro x hx
  · exact hx
  · show x ∈ addMatched (pyLower t.name) (classifyStep bn ig st t et).matched
    rw [classifyStep_matched]
    exact addMatched_sub _ _ x hx

theorem stage2Step_bucket (bn : List (String × LocalTag)) (ig : List String)
    (st : TState) (t : Tag) :
    bucketCount (stage2Step bn ig st t) ≤
      bucketCount st + (if nameEligibleB bn st.matched t = true then 1 else 0) := by
  rcases stage2Step_cases bn ig st t with ⟨he, heq⟩ | ⟨he, et, _, heq⟩ <;> rw [heq, he]
  · simp
  · rw [bucketCount_set_matched]
    simpa using classifyStep_bucket bn ig st t et

theorem stage2Step_mark (bn : List (String × LocalTag)) (ig : List String)
    (st : TState) (t : Tag) (h1 : t.name ≠ "")
    (h2 : (List.lookup (pyLower t.name) bn).isSome = true) :
    pyLower t.name ∈ (stage2Step bn ig st t).matched := by
  by_cases hm : pyLower t.name ∈ st.matched
  · exact stage2Step_matched_sub bn ig st t _ hm
  · rcases stage2Step_cases bn ig st t with ⟨he, _⟩ | ⟨_, et, _, heq⟩
    · exfalso
      simp [nameEligibleB, h1, hm, h2] at he
    · rw [heq]
      exact self_mem_addMatched _ _

theorem stage2Step_names (bn : List (String × LocalTag)) (ig : List String)
    (st : TState) (t : Tag)
    (h : ∀ it ∈ st.updates, it.merged.name ≠ "") :
    ∀ it ∈ (stage2Step bn ig st t).updates, it.merged.name ≠ "" := by
  rcases stage2Step_cases bn ig st t with ⟨_, heq⟩ | ⟨he, et, _, heq⟩ <;> rw [heq]
  · exact h
  · show ∀ it ∈ (classifyStep bn ig st t et).updates, it.merged.name ≠ ""
    intro it hit
    rcases classifyStep_updates_cases bn ig st t et with hc | hc
    · rw [hc] at hit
      exact h it hit
    · rw [hc] at hit
      rcases List.mem_append.mp hit with hold | hnew
      · exact h it hold
      · rcases List.mem_singleton.mp hnew with rfl
        show (mergeTagData t et ig).name ≠ ""
        rw [mergeTagData_name]
        simp [nameEligibleB, Bool.and_eq_true] at he
        exact he.1.1

theorem stage2_fold_matched_sub (bn : List (String × LocalTag)) (ig : List String)
    (ts : List Tag) :
    ∀ st, ∀ x ∈ st.matched, x ∈ (ts.foldl (stage2Step bn ig) st).matched := by
  induction ts with
  | nil => intro st x hx; exact hx
  | cons t ts ih =>
    intro st x hx
    exact ih _ x (stage2Step_matched_sub bn ig st t x hx)

theorem stage2_fold_skipped (bn : List (String × LocalTag)) (ig : List String)
    (ts : List Tag) :
    ∀ st, (ts.foldl (stage2Step bn ig) st).skipped = st.skipped := by
  induction ts with
  | nil => intro st; rfl
  | cons t ts ih =>
    intro st
    rw [List.foldl_cons, ih, stage2Step_skipped]

theorem stage2_fold_bucket (bn : List (String × LocalTag)) (ig : List String)
    (ts : List Tag) :
    ∀ st, bucketCount (ts.foldl (stage2Step bn ig) st) ≤
      bucketCount st + ts.countP (nameEligibleB bn st.matched) := by
  induction ts with
  | nil => intro st; simp
  | cons t ts ih =>
    intro st
    rw [List.foldl_cons, List.countP_cons]
    have hstep := stage2Step_bucket bn ig st t
    have hih := ih (stage2Step bn ig st t)
    have hle : ts.countP (nameEligibleB bn (stage2Step bn ig st t).matched) ≤
        ts.countP (nameEligibleB bn st.matched) := by
      apply List.countP_mono_left
      intro u _ hu
      simp only [nameEligibleB, Bool.and_eq_true, Bool.not_eq_true', decide_eq_false_iff_not] at hu ⊢
      exact ⟨⟨hu.1.1, fun hmem => hu.1.2 (stage2Step_matched_sub bn ig st t _ hmem)⟩, hu.2⟩
    split_ifs at hstep ⊢ <;> omega

theorem stage2_fold_names (bn : List (String × LocalTag)) (ig : List String)
    (ts : List Tag) :
    ∀ st, (∀ it ∈ st.updates, it.merged.name ≠ "") →
      ∀ it ∈ (ts.foldl (stage2Step bn ig) st).updates, it.merged.name ≠ "" := by
  induction ts with
  | nil => intro st h; exact h
  | cons t ts ih =>
    intro st h
    exact ih _ (stage2Step_names bn ig st t h)

theorem stage2_fold_mark (bn : List (String × LocalTag)) (ig : List String)
    (ts : List Tag) :
    ∀ st, ∀ t ∈ ts, t.name ≠ "" → (List.lookup (pyLower t.name) bn).isSome = true →
      pyLower t.name ∈ (ts.foldl (stage2Step bn ig) st).matched := by
  induction ts with
  | nil => intro st t ht; cases ht
  | cons u ts ih =>
    intro st t ht h1 h2
    rcases List.mem_cons.mp ht with rfl | ht
    · exact stage2_fold_matched_sub bn ig ts _ _ (stage2Step_mark bn ig st t h1 h2)
    · exact ih _ t ht h1 h2

theorem stage3Go_sublist (bn : List (String × LocalTag)) :
    ∀ fuel i (l : List Tag), (stage3Go bn fuel i l).Sublist l := by
  intro fuel
  induction fuel with
  | zero => intro i l; exact List.Sublist.refl l
  | succ n ih =>
    intro i l
    unfold stage3Go
    by_cases h : i < l.length
    · rw [dif_pos h]
      by_cases hl : (List.lookup (pyLower (l.get ⟨i, h⟩).name) bn).isSome = true
      · rw [if_pos hl]
        exact (ih (i + 1) (l.erase (l.get ⟨i, h⟩))).trans (List.erase_sublist _ _)
      · rw [if_neg hl]
        exact ih (i + 1) l
    · rw [dif_neg h]

theorem stage3Recheck_sublist (bn : List (String × LocalTag)) (l : List Tag) :
    (stage3Recheck bn l).Sublist l :=
  stage3Go_sublist bn l.length 0 l

theorem dictInsert_length {β : Type} (k : String) (v : β) (d : List (String × β)) :
    (dictInsert k v d).length ≤ d.length + 1 := by
  unfold dictInsert
  split_ifs
  · simp
  · simp

theorem createTagsBatch_length (co : Tag → Bool) (ts : List Tag) :
    (createTagsBatch co ts).length ≤ ts.length := by
  have h : ∀ (ts : List Tag) (d : List (String × String)),
      (ts.foldl (fun d t =>
        if pyStrip t.name = "" then d
        else if co t then dictInsert (pyLower t.name) "created-id" d
        else d) d).length ≤ d.length + ts.length := by
    intro ts
    induction ts with
    | nil => intro d; simp
    | cons t ts ih =>
      intro d
      rw [List.foldl_cons]
      refine le_trans (ih _) ?_
      have hstep : (if pyStrip t.name = "" then d
          else if co t then dictInsert (pyLower t.name) "created-id" d
          else d).length ≤ d.length + 1 := by
        split_ifs
        · omega
        · exact dictInsert_length _ _ _
        · omega
      simp only [List.length_cons]
      omega
  simpa [createTagsBatch] using h ts []

theorem updateTagsBatch_le (uo : Nat → UpdateItem → Bool) (items : List UpdateItem) :
    updateTagsBatch uo items ≤ items.length := by
  unfold updateTagsBatch
  calc (items.enum.countP fun p => uo p.1 p.2) ≤ items.enum.length :=
        List.countP_le_length _
    _ = items.length := List.enum_length

theorem stage1Step_no_match (bn bs : List (String × LocalTag)) (ig : List String)
    (st : TState) (t : Tag)
    (h : t.stash_id = "" ∨ List.lookup t.stash_id bs = none) :
    stage1Step bn bs ig st t = st := by
  rcases stage1Step_cases bn bs ig st t with ⟨_, heq⟩ | ⟨hp, _⟩ | ⟨hm, _, et, hlk, _⟩
  · exact heq
  · exfalso
    rcases h with h | h <;> simp [skipPredB, stashMatchedB, h] at hp
  · exfalso
    rcases h with h | h <;> simp [stashMatchedB, h] at hm

theorem stage1_fold_no_match (bn bs : List (String × LocalTag)) (ig : List String)
    (ts : List Tag)
    (h : ∀ t ∈ ts, t.stash_id = "" ∨ List.lookup t.stash_id bs = none) :
    ∀ st, ts.foldl (stage1Step bn bs ig) st = st := by
  induction ts with
  | nil => intro st; rfl
  | cons t ts ih =>
    intro st
    rw [List.foldl_cons, stage1Step_no_match bn bs ig st t (h t (List.mem_cons_self t ts))]
    exact ih (fun u hu => h u (List.mem_cons_of_mem t hu)) st

theorem stage2Step_empty_byName (ig : List String) (st : TState) (t : Tag) :
    stage2Step [] ig st t = st := by
  rcases stage2Step_cases [] ig st t with ⟨_, heq⟩ | ⟨_, et, hlk, _⟩
  · exact heq
  · cases hlk

theorem stage2_fold_empty_byName (ig : List String) (ts : List Tag) :
    ∀ st, ts.foldl (stage2Step [] ig) st = st := by
  induction ts with
  | nil => intro st; rfl
  | cons t ts ih =>
    intro st
    rw [List.foldl_cons, stage2Step_empty_byName]
    exact ih st

theorem runStages_empty (ig : List String) (tags : List Tag) :
    runStages [] [] ig tags = initTState := by
  unfold runStages
  rw [stage1_fold_no_match [] [] ig tags (fun t _ => Or.inr rfl),
    stage2_fold_empty_byName ig tags]

theorem stage3Go_empty_byName : ∀ fuel i (l : List Tag), stage3Go [] fuel i l = l := by
  intro fuel
  induction fuel with
  | zero => intro i l; rfl
  | succ n ih =>
    intro i l
    unfold stage3Go
    by_cases h : i < l.length
    · rw [dif_pos h, if_neg (by simp [List.lookup])]
      exact ih (i + 1) l
    · rw [dif_neg h]

theorem countP_three_le_length {α : Type} (p q r : α → Bool) (l : List α)
    (h : ∀ a ∈ l, ¬(p a = true ∧ q a = true) ∧ ¬(p a = true ∧ r a = true) ∧
      ¬(q a = true ∧ r a = true)) :
    l.countP p + l.countP q + l.countP r ≤ l.length := by
  induction l with
  | nil => simp
  | cons a t ih =>
    rw [List.countP_cons, List.countP_cons, List.countP_cons]
    rcases h a (List.mem_cons_self a t) with ⟨hpq, hpr, hqr⟩
    have ht := ih (fun b hb => h b (List.mem_cons_of_mem a hb))
    simp only [List.length_cons]
    by_cases hp : p a = true <;> by_cases hq : q a = true <;> by_cases hr : r a = true
    · exact absurd ⟨hp, hq⟩ hpq
    · exact absurd ⟨hp, hq⟩ hpq
    · exact absurd ⟨hp, hr⟩ hpr
    · simp [hp, hq, hr]; omega
    · exact absurd ⟨hq, hr⟩ hqr
    · simp [hp, hq, hr]; omega
    · simp [hp, hq, hr]; omega
    · simp [hp, hq, hr]; omega

theorem mem_merged_aliases (stashdb : Tag) (existing : LocalTag) (ignored : List String)
    (a : String) :
    a ∈ (mergeTagData stashdb existing ignored).aliases ↔
      (a ∈ filterAliasList (ignoredSetOf ignored) existing.aliases ∨
       a ∈ filterAliasList (ignoredSetOf ignored) stashdb.aliases) := by
  rw [mergeTagData_aliases_def, mem_sortStrings, List.mem_dedup, List.mem_append]

theorem mergedAliases_nodup (stashdb : Tag) (existing : LocalTag) (ignored : List String) :
    (mergeTagData stashdb existing ignored).aliases.Nodup := by
  rw [mergeTagData_aliases_def]
  exact (sortStrings_perm _).nodup_iff.mpr (List.nodup_dedup _)

theorem merged_alias_inv (stashdb : Tag) (existing : LocalTag) (ignored : List String) :
    ∀ a ∈ (mergeTagData stashdb existing ignored).aliases,
      pyStrip a = a ∧ a ≠ "" ∧ pyLower a ∉ ignoredSetOf ignored := by
  intro a ha
  rw [mem_merged_aliases] at ha
  rcases ha with h | h <;>
  · rcases (mem_filterAliasList _ _ _).mp h with ⟨b, _, hba, h1, h2⟩
    refine ⟨?_, h1, h2⟩
    rw [← hba, pyStrip_idem]

theorem filterAliasList_of_inv (ig : List String) (l : List String) (hn : l.Nodup)
    (hinv : ∀ a ∈ l, pyStrip a = a ∧ a ≠ "" ∧ pyLower a ∉ ig) :
    filterAliasList ig l = l := by
  unfold filterAliasList
  rw [filterMap_some_self, List.dedup_eq_self.mpr hn]
  intro a ha
  rcases hinv a ha with ⟨h1, h2, h3⟩
  simp only
  rw [h1, if_pos ⟨h2, h3⟩]

theorem stripFilterMap_of_inv (l : List String)
    (hinv : ∀ a ∈ l, pyStrip a = a ∧ a ≠ "") :
    (l.filterMap (fun a =>
      let s := pyStrip a
      if s ≠ "" then some s else none)) = l := by
  apply filterMap_some_self
  intro a ha
  rcases hinv a ha with ⟨h1, h2⟩
  simp only
  rw [h1, if_pos h2]

theorem mergeTagData_descr_def (stashdb : Tag) (existing : LocalTag) (ignored : List String) :
    (mergeTagData stashdb existing ignored).description =
      (if pyStrip stashdb.description ≠ "" then pyStrip stashdb.description
       else pyStrip (existing.description.getD "")) := rfl

theorem mergeTagData_descr_strip (stashdb : Tag) (existing : LocalTag) (ignored : List String) :
    pyStrip (mergeTagData stashdb existing ignored).description =
      (mergeTagData stashdb existing ignored).description := by
  rw [mergeTagData_descr_def]
  by_cases h : pyStrip stashdb.description ≠ ""
  · rw [if_pos h, pyStrip_idem]
  · rw [if_neg h, pyStrip_idem]

theorem applyMerge_descr (stashdb : Tag) (existing : LocalTag) (ignored : List String) :
    (applyMerge stashdb existing ignored).description =
      (if (mergeTagData stashdb existing ignored).description ≠ ""
       then some (mergeTagData stashdb existing ignored).description
       else existing.description) := rfl

theorem applyMerge_aliases (stashdb : Tag) (existing : LocalTag) (ignored : List String) :
    (applyMerge stashdb existing ignored).aliases =
      (if (mergeTagData stashdb existing ignored).aliases ≠ []
       then (mergeTagData stashdb existing ignored).aliases
       else existing.aliases) := rfl

theorem mergeTagData_descr_blank (stashdb : Tag) (existing : LocalTag) (ignored : List String)
    (hd : (mergeTagData stashdb existing ignored).description = "") :
    pyStrip stashdb.description = "" ∧ pyStrip (existing.description.getD "") = "" := by
  rw [mergeTagData_descr_def] at hd
  split_ifs at hd with h
  · exact absurd hd h
  · push_neg at h
    exact ⟨h, hd⟩

theorem applyMerge_stash_ids_mem (stashdb : Tag) (existing : LocalTag) (ignored : List String)
    (h : stashdb.stash_id ≠ "") :
    stashdb.stash_id ∈ (applyMerge stashdb existing ignored).stash_ids.map
      (fun r => r.stash_id) := by
  show stashdb.stash_id ∈
    (if stashdb.stash_id ≠ "" ∧
        stashdb.stash_id ∉ existing.stash_ids.map (fun r => r.stash_id) then
      existing.stash_ids ++ [⟨"https://stashdb.org/graphql", stashdb.stash_id⟩]
    else existing.stash_ids).map (fun r => r.stash_id)
  split_ifs with hc
  · simp
  · exact of_not_not (fun hb => hc ⟨h, hb⟩)

theorem applyMerge_descr_strip_eq (stashdb : Tag) (existing : LocalTag)
    (ignored : List String) :
    pyStrip ((applyMerge stashdb existing ignored).description.getD "") =
      pyStrip (mergeTagData stashdb (applyMerge stashdb existing ignored) ignored).description := by
  by_cases hd : (mergeTagData stashdb existing ignored).description = ""
  · have hld : (applyMerge stashdb existing ignored).description = existing.description := by
      rw [applyMerge_descr, if_neg (by simp [hd])]
    rcases mergeTagData_descr_blank stashdb existing ignored hd with ⟨hsd, hed⟩
    rw [mergeTagData_descr_def stashdb (applyMerge stashdb existing ignored) ignored, hld,
      if_neg (fun h => h hsd), pyStrip_idem]
  · have hld : (applyMerge stashdb existing ignored).description =
        some (mergeTagData stashdb existing ignored).description := by
      rw [applyMerge_descr, if_pos hd]
    rw [mergeTagData_descr_def stashdb (applyMerge stashdb existing ignored) ignored, hld]
    simp only [Option.getD_some]
    by_cases hsd : pyStrip stashdb.description ≠ ""
    · rw [if_pos hsd, mergeTagData_descr_def, if_pos hsd]
    · rw [if_neg hsd, pyStrip_idem]

theorem isTagOutOfSync_eq_false_iff (stashdb : Tag) (existing : LocalTag)
    (ignored : List String) :
    isTagOutOfSync stashdb existing ignored = false ↔
      (pyStrip (existing.description.getD "") =
        pyStrip (mergeTagData stashdb existing ignored).description ∧
       listSetEq
        (existing.aliases.filterMap (fun a =>
          let s := pyStrip a
          if s ≠ "" then some s else none))
        (mergeTagData stashdb existing ignored).aliases = true ∧
       ¬ (stashdb.stash_id ≠ "" ∧
          stashdb.stash_id ∉ existing.stash_ids.map (fun r => r.stash_id))) := by
  unfold isTagOutOfSync
  split_ifs <;> simp_all

/-- Claim C2 counterexample: the update writes aliases only when the merged
list is truthy, so a local entity whose one alias X is on the ignore list
keeps that alias after a successful first run; the out-of-sync check then
still reports it out of sync, and a second full run over the post-state
yields updated = 1, not 0. -/
theorem c2_idempotence_counterexample :
    isTagOutOfSync ⟨"T", "", "S", [], none, none⟩
      (applyMerge ⟨"T", "", "S", [], none, none⟩
        ⟨"1", "T", some "", ["X"], []⟩ ["x"]) ["x"] = true ∧
    (transferTagsGraphql
        [("t", applyMerge ⟨"T", "", "S", [], none, none⟩
          ⟨"1", "T", some "", ["X"], []⟩ ["x"])]
        [("S", applyMerge ⟨"T", "", "S", [], none, none⟩
          ⟨"1", "T", some "", ["X"], []⟩ ["x"])]
        ["x"] (fun _ => true) (fun _ _ => true)
        [⟨"T", "", "S", [], none, none⟩]).updated = 1 := by decide

/-- Claim C2 amended: reconciliation is idempotent at the sync-check level
except when a truthiness guard of the update drops a merged field: if the
merged alias list is non-empty, or the local entity carries no alias with a
non-blank stripped form, then the partial-update post-state of a successful
run is reported in sync, so the second run issues no update for it; a local
entity whose every non-blank alias is ignored while the merge produces no
alias stays out of sync on every run. -/
theorem c2_partial_update_idempotent (stashdb : Tag) (existing : LocalTag)
    (ignored : List String)
    (h : (mergeTagData stashdb existing ignored).aliases ≠ [] ∨
      existing.aliases.filterMap (fun a =>
        let s := pyStrip a
        if s ≠ "" then some s else none) = []) :
    isTagOutOfSync stashdb (applyMerge stashdb existing ignored) ignored = false := by
  rw [isTagOutOfSync_eq_false_iff]
  refine ⟨applyMerge_descr_strip_eq stashdb existing ignored, ?_, ?_⟩
  · by_cases hA : (mergeTagData stashdb existing ignored).aliases = []
    · have hla : (applyMerge stashdb existing ignored).aliases = existing.aliases := by
        rw [applyMerge_aliases, if_neg (by simp [hA])]
      have hright : existing.aliases.filterMap (fun a =>
          let s := pyStrip a
          if s ≠ "" then some s else none) = [] := by
        rcases h with h | h
        · exact absurd hA h
        · exact h
      have hm : (mergeTagData stashdb (applyMerge stashdb existing ignored) ignored).aliases
          = [] := by
        rw [mergeTagData_aliases_def, hla, ← mergeTagData_aliases_def, hA]
      rw [hla, hright, hm]
      rfl
    · have hla : (applyMerge stashdb existing ignored).aliases =
          (mergeTagData stashdb existing ignored).aliases := by
        rw [applyMerge_aliases, if_pos hA]
      rw [hla, stripFilterMap_of_inv _
        (fun a ha => ⟨(merged_alias_inv stashdb existing ignored a ha).1,
          (merged_alias_inv stashdb existing ignored a ha).2.1⟩)]
      rw [listSetEq_eq_true]
      constructor
      · intro x hx
        rw [mem_merged_aliases, hla,
          filterAliasList_of_inv _ _ (mergedAliases_nodup stashdb existing ignored)
            (merged_alias_inv stashdb existing ignored)]
        exact Or.inl hx
      · intro x hx
        rw [mem_merged_aliases, hla,
          filterAliasList_of_inv _ _ (mergedAliases_nodup stashdb existing ignored)
            (merged_alias_inv stashdb existing ignored)] at hx
        rcases hx with hx | hx
        · exact hx
        · exact (mem_merged_aliases stashdb existing ignored x).mpr (Or.inr hx)
  · rintro ⟨hs, hmem⟩
    exact hmem (applyMerge_stash_ids_mem stashdb existing ignored hs)

/-- Witness for c2_partial_update_idempotent: a matched pair whose merged
alias list is non-empty satisfies the hypothesis and the post-state is in
sync. -/
theorem c2_partial_update_idempotent_witness :
    isTagOutOfSync ⟨"T", "d", "S", [], none, none⟩
      (applyMerge ⟨"T", "d", "S", [], none, none⟩
        ⟨"1", "T", some "", ["b"], []⟩ []) [] = false :=
  c2_partial_update_idempotent ⟨"T", "d", "S", [], none, none⟩
    ⟨"1", "T", some "", ["b"], []⟩ [] (by decide)

theorem tstate_set_matched_updates (st : TState) (m : List String) :
    ({ st with matched := m }).updates = st.updates := rfl

theorem tstate_set_matched_matched (st : TState) (m : List String) :
    ({ st with matched := m }).matched = m := rfl

theorem runStages_def (bn bs : List (String × LocalTag)) (ig : List String) (tags : List Tag) :
    runStages bn bs ig tags =
      tags.foldl (stage2Step bn ig) (tags.foldl (stage1Step bn bs ig) initTState) := rfl

theorem transfer_created (bn bs : List (String × LocalTag)) (ig : List String)
    (co : Tag → Bool) (uo : Nat → UpdateItem → Bool) (tags : List Tag) :
    (transferTagsGraphql bn bs ig co uo tags).created =
      (createTagsBatch co (creationCandidates bn bs ig tags)).length := rfl

theorem transfer_updated (bn bs : List (String × LocalTag)) (ig : List String)
    (co : Tag → Bool) (uo : Nat → UpdateItem → Bool) (tags : List Tag) :
    (transferTagsGraphql bn bs ig co uo tags).updated =
      updateTagsBatch uo (runStages bn bs ig tags).updates := rfl

theorem transfer_skipped (bn bs : List (String × LocalTag)) (ig : List String)
    (co : Tag → Bool) (uo : Nat → UpdateItem → Bool) (tags : List Tag) :
    (transferTagsGraphql bn bs ig co uo tags).skipped =
      (runStages bn bs ig tags).skipped := rfl

theorem transfer_failed (bn bs : List (String × LocalTag)) (ig : List String)
    (co : Tag → Bool) (uo : Nat → UpdateItem → Bool) (tags : List Tag) :
    (transferTagsGraphql bn bs ig co uo tags).failed =
      (runStages bn bs ig tags).failed +
        ((runStages bn bs ig tags).updates.length -
          updateTagsBatch uo (runStages bn bs ig tags).updates) := rfl

theorem transfer_total (bn bs : List (String × LocalTag)) (ig : List String)
    (co : Tag → Bool) (uo : Nat → UpdateItem → Bool) (tags : List Tag) :
    (transferTagsGraphql bn bs ig co uo tags).total = tags.length := rfl

theorem runTransferWithRead_none_eq (ig : List String) (co : Tag → Bool)
    (uo : Nat → UpdateItem → Bool) (tags : List Tag) :
    runTransferWithRead none ig co uo tags = transferTagsGraphql [] [] ig co uo tags := rfl

/-- Claim C4 counterexample: merging local aliases Foo, bar with remote aliases
FOO, baz and an empty ignore list keeps both FOO and Foo, giving four
aliases with a case-insensitive duplicate instead of one representative per
case-insensitive group. -/
theorem c4_alias_merge_counterexample :
    (mergeTagData ⟨"T", "", "S", ["FOO", "baz"], none, none⟩
        ⟨"1", "T", some "", ["Foo", "bar"], []⟩ []).aliases = ["FOO", "Foo", "bar", "baz"] ∧
    ¬ ((mergeTagData ⟨"T", "", "S", ["FOO", "baz"], none, none⟩
        ⟨"1", "T", some "", ["Foo", "bar"], []⟩ []).aliases.map pyLower).Nodup := by decide

/-- Claim C4 amended: the merged alias list is sorted and duplicate-free under
exact (case-sensitive) string equality, and contains an alias exactly when
one of the two filtered sides contributed it; one representative per
case-insensitive group is not guaranteed. -/
theorem c4_alias_merge_amended (stashdb : Tag) (existing : LocalTag) (ignored : List String) :
    (mergeTagData stashdb existing ignored).aliases.Nodup ∧
    (mergeTagData stashdb existing ignored).aliases.Pairwise (fun a b => pyLe a b = true) ∧
    ∀ a, a ∈ (mergeTagData stashdb existing ignored).aliases ↔
      (a ∈ filterAliasList (ignoredSetOf ignored) existing.aliases ∨
       a ∈ filterAliasList (ignoredSetOf ignored) stashdb.aliases) := by
  rw [mergeTagData_aliases_def]
  refine ⟨?_, sortStrings_pairwise _, ?_⟩
  · exact (sortStrings_perm _).nodup_iff.mpr (List.nodup_dedup _)
  · intro a
    rw [mem_sortStrings, List.mem_dedup, List.mem_append]

/-- Claim C5 amended: when the local read fails, the reconciliation run proceeds
against the empty indices the client returns: nothing is skipped, nothing is
failed, no update is issued, and every remote tag with a non-empty name is
passed to the create batch. -/
theorem c5_read_failure_amended (tags : List Tag) (ignored : List String)
    (createOk : Tag → Bool) (updateOk : Nat → UpdateItem → Bool) :
    (runTransferWithRead none ignored createOk updateOk tags).updated = 0 ∧
    (runTransferWithRead none ignored createOk updateOk tags).skipped = 0 ∧
    (runTransferWithRead none ignored createOk updateOk tags).failed = 0 ∧
    creationCandidates [] [] ignored tags =
      tags.filter (fun t => decide (t.name ≠ "")) := by
  have hrs : runStages [] [] ignored tags = initTState := runStages_empty ignored tags
  refine ⟨?_, ?_, ?_, ?_⟩
  · rw [runTransferWithRead_none_eq, transfer_updated, hrs]
    rfl
  · rw [runTransferWithRead_none_eq, transfer_skipped, hrs]
    rfl
  · rw [runTransferWithRead_none_eq, transfer_failed, hrs]
    rfl
  · unfold creationCandidates stage3Recheck
    rw [hrs, stage3Go_empty_byName]
    unfold newTagsOf
    apply List.filter_congr
    intro t _
    simp [initTState]

/-- Claim C7 amended: skipped counts exactly the stash-matched remote tags with a
blank name; every queued update item carries a non-empty (though possibly
whitespace-only) name, and every stage-3 create candidate has a non-empty
name; a whitespace-only name is only excluded from stage 1, not from stage 2
or stage 3. -/
theorem c7_blank_name_amended (bn bs : List (String × LocalTag)) (ig : List String)
    (tags : List Tag) :
    (runStages bn bs ig tags).skipped = tags.countP (skipPredB bs) ∧
    ((runStages bn bs ig tags).updates.all (fun it => !(it.merged.name == ""))) = true ∧
    ((creationCandidates bn bs ig tags).all (fun t => !(t.name == ""))) = true := by
  refine ⟨?_, ?_, ?_⟩
  · rw [runStages_def, stage2_fold_skipped, stage1_fold_skipped]
    simp [initTState]
  · rw [List.all_eq_true]
    intro it hit
    rw [runStages_def] at hit
    have hne := stage2_fold_names bn ig tags _
      (stage1_fold_names bn bs ig tags initTState (by intro it h; cases h)) it hit
    simp only [Bool.not_eq_true', beq_eq_false_iff_ne]
    exact hne
  · rw [List.all_eq_true]
    intro t ht
    unfold creationCandidates at ht
    have hmem : t ∈ newTagsOf (runStages bn bs ig tags) tags :=
      (stage3Recheck_sublist bn _).subset ht
    unfold newTagsOf at hmem
    rcases List.mem_filter.mp hmem with ⟨_, hcond⟩
    rw [decide_eq_true_eq] at hcond
    simp only [Bool.not_eq_true', beq_eq_false_iff_ne]
    exact hcond.1

/-- Claim C3 amended: when stage 1 matches nothing (no remote tag carries a
stash_id present in the external-id index) and distinct name-index keys
carry distinct local ids, no local id appears twice in the update batch;
the counterexample shows the guarantee does not survive stage-1 matches
whose remote name differs from the local name. -/
theorem c3_nodup_ids_without_stage1 (bn bs : List (String × LocalTag)) (ig : List String)
    (tags : List Tag)
    (hs1 : ∀ t ∈ tags, t.stash_id = "" ∨ List.lookup t.stash_id bs = none)
    (hinj : ∀ n1 n2 e1 e2, List.lookup n1 bn = some e1 → List.lookup n2 bn = some e2 →
      n1 ≠ n2 → e1.id ≠ e2.id) :
    ((runStages bn bs ig tags).updates.map (fun u => u.id)).Nodup := by
  rw [runStages_def, stage1_fold_no_match bn bs ig tags hs1]
  suffices h : ∀ (ts : List Tag) (st : TState),
      (∀ it ∈ st.updates, ∃ n e, n ∈ st.matched ∧ List.lookup n bn = some e ∧ it.id = e.id) →
      ((st.updates.map (fun u => u.id)).Nodup) →
      (((ts.foldl (stage2Step bn ig) st).updates.map (fun u => u.id)).Nodup) by
    exact h tags initTState (by intro it h'; cases h') (by simp [initTState])
  intro ts
  induction ts with
  | nil => intro st h1 h2; exact h2
  | cons t ts ih =>
    intro st h1 h2
    rw [List.foldl_cons]
    rcases stage2Step_cases bn ig st t with ⟨_, heq⟩ | ⟨he, et, hlk, heq⟩
    · rw [heq]
      exact ih st h1 h2
    · rw [heq]
      simp only [nameEligibleB, Bool.and_eq_true, Bool.not_eq_true', beq_eq_false_iff_ne,
        decide_eq_false_iff_not] at he
      rcases classifyStep_updates_cases bn ig st t et with hc | hc
      · apply ih
        · intro it hit
          rw [tstate_set_matched_updates, hc] at hit
          rcases h1 it hit with ⟨n', e', hn', hlk', hid⟩
          refine ⟨n', e', ?_, hlk', hid⟩
          rw [tstate_set_matched_matched, classifyStep_matched]
          exact addMatched_sub _ _ _ hn'
        · rw [tstate_set_matched_updates, hc]
          exact h2
      · apply ih
        · intro it hit
          rw [tstate_set_matched_updates, hc] at hit
          rcases List.mem_append.mp hit with hold | hnew
          · rcases h1 it hold with ⟨n', e', hn', hlk', hid⟩
            refine ⟨n', e', ?_, hlk', hid⟩
            rw [tstate_set_matched_matched, classifyStep_matched]
            exact addMatched_sub _ _ _ hn'
          · rcases List.mem_singleton.mp hnew with rfl
            refine ⟨pyLower t.name, et, ?_, hlk, rfl⟩
            rw [tstate_set_matched_matched, classifyStep_matched]
            exact self_mem_addMatched _ _
        · rw [tstate_set_matched_updates, hc, List.map_append]
          rw [List.nodup_append]
          refine ⟨h2, by simp, ?_⟩
          intro x hx1 hx2
          rcases List.mem_singleton.mp hx2 with rfl
          rcases List.mem_map.mp hx1 with ⟨it, hitmem, hitid⟩
          rcases h1 it hitmem with ⟨n', e', hn', hlk', hid⟩
          have hne : n' ≠ pyLower t.name := by
            intro hnn
            exact he.1.2 (hnn ▸ hn')
          exact hinj n' (pyLower t.name) e' et hlk' hlk hne (by rw [← hid, hitid])

/-- Witness for c3_nodup_ids_without_stage1: an empty index pair and one
remote tag with no stash_id satisfy both hypotheses, and the resulting
batch has no duplicate id. -/
theorem c3_nodup_ids_without_stage1_witness :
    ((runStages [] [] [] [⟨"A", "", "", [], none, none⟩]).updates.map (fun u => u.id)).Nodup :=
  c3_nodup_ids_without_stage1 [] [] [] [⟨"A", "", "", [], none, none⟩]
    (by intro t ht; left; rcases List.mem_singleton.mp ht with rfl; rfl)
    (by intro n1 n2 e1 e2 h1 h2 h3; simp [List.lookup] at h1)

/-- Claim C6 amended: the conflict detector reports exactly the merged aliases
whose lowered-then-stripped form is non-empty, not ignored and a key of the
name index; in particular the own name of the merged entity, when it occurs in
its own alias list and satisfies those tests, is itself reported as a
conflict — no self-name filter exists. -/
theorem c6_no_self_name_filter (merged : Tag) (byName : List (String × LocalTag))
    (ignored : List String) :
    (∀ a ∈ hasAliasConflicts merged byName ignored,
      a ∈ merged.aliases ∧ (List.lookup (pyStrip (pyLower a)) byName).isSome = true ∧
      pyStrip (pyLower a) ∉ ignoredSetOf ignored) ∧
    (merged.name ∈ merged.aliases → pyStrip (pyLower merged.name) ≠ "" →
      pyStrip (pyLower merged.name) ∉ ignoredSetOf ignored →
      (List.lookup (pyStrip (pyLower merged.name)) byName).isSome = true →
      merged.name ∈ hasAliasConflicts merged byName ignored) := by
  constructor
  · intro a ha
    unfold hasAliasConflicts at ha
    rcases List.mem_filter.mp ha with ⟨h1, h2⟩
    simp only [decide_eq_true_eq] at h2
    exact ⟨h1, h2.2.2, h2.2.1⟩
  · intro h1 h2 h3 h4
    unfold hasAliasConflicts
    refine List.mem_filter.mpr ⟨h1, ?_⟩
    simp only [decide_eq_true_eq]
    exact ⟨h2, h3, h4⟩

/-- Witness for c6_no_self_name_filter: the merged tag named Foo with alias
Foo, whose lowercase is a key of the index, has its own name reported. -/
theorem c6_no_self_name_filter_witness :
    "Foo" ∈ hasAliasConflicts ⟨"Foo", "", "", ["Foo"], none, none⟩
      [("foo", locFooSelf)] [] :=
  (c6_no_self_name_filter ⟨"Foo", "", "", ["Foo"], none, none⟩ [("foo", locFooSelf)] []).2
    (by decide) (by decide) (by decide) (by decide)

/-- Claim C1 amended: provided no remote tag carries a whitespace-only non-empty
name, the statistics satisfy created + updated + skipped + failed ≤ total;
the counterexample shows equality fails (an in-sync matched tag falls in no
bucket). -/
theorem c1_sum_le (bn bs : List (String × LocalTag)) (ig : List String)
    (co : Tag → Bool) (uo : Nat → UpdateItem → Bool) (tags : List Tag)
    (hblank : ∀ t ∈ tags, t.name = "" ∨ pyStrip t.name ≠ "") :
    (transferTagsGraphql bn bs ig co uo tags).created +
      (transferTagsGraphql bn bs ig co uo tags).updated +
      (transferTagsGraphql bn bs ig co uo tags).skipped +
      (transferTagsGraphql bn bs ig co uo tags).failed ≤
      (transferTagsGraphql bn bs ig co uo tags).total := by
  rw [transfer_created, transfer_updated, transfer_skipped, transfer_failed, transfer_total]
  have h1 : bucketCount (tags.foldl (stage1Step bn bs ig) initTState) ≤
      tags.countP (stashMatchedB bs) := by
    have h := stage1_fold_bucket bn bs ig tags initTState
    simpa [bucketCount, initTState] using h
  have h2 : bucketCount (runStages bn bs ig tags) ≤
      bucketCount (tags.foldl (stage1Step bn bs ig) initTState) +
      tags.countP (nameEligibleB bn (tags.foldl (stage1Step bn bs ig) initTState).matched) := by
    rw [runStages_def]
    exact stage2_fold_bucket bn ig tags _
  have hcr : (createTagsBatch co (creationCandidates bn bs ig tags)).length ≤
      tags.countP (fun t =>
        decide (t.name ≠ "" ∧ pyLower t.name ∉ (runStages bn bs ig tags).matched)) := by
    refine le_trans (createTagsBatch_length co _) ?_
    refine le_trans (stage3Recheck_sublist bn _).length_le ?_
    unfold newTagsOf
    exact le_of_eq (List.countP_eq_length_filter _ _).symm
  have hsub12 : ∀ x ∈ (tags.foldl (stage1Step bn bs ig) initTState).matched,
      x ∈ (runStages bn bs ig tags).matched := by
    rw [runStages_def]
    exact stage2_fold_matched_sub bn ig tags _
  have hdisj : ∀ t ∈ tags,
      ¬(stashMatchedB bs t = true ∧
        nameEligibleB bn (tags.foldl (stage1Step bn bs ig) initTState).matched t = true) ∧
      ¬(stashMatchedB bs t = true ∧
        (decide (t.name ≠ "" ∧ pyLower t.name ∉ (runStages bn bs ig tags).matched)) = true) ∧
      ¬(nameEligibleB bn (tags.foldl (stage1Step bn bs ig) initTState).matched t = true ∧
        (decide (t.name ≠ "" ∧ pyLower t.name ∉ (runStages bn bs ig tags).matched)) = true) := by
    intro t ht
    refine ⟨?_, ?_, ?_⟩
    · rintro ⟨hp, hq⟩
      simp only [nameEligibleB, Bool.and_eq_true, Bool.not_eq_true', beq_eq_false_iff_ne,
        decide_eq_false_iff_not] at hq
      rcases hblank t ht with hb | hb
      · exact hq.1.1 hb
      · exact hq.1.2 (stage1_fold_mark bn bs ig tags initTState t ht hp hb)
    · rintro ⟨hp, hr⟩
      rw [decide_eq_true_eq] at hr
      rcases hblank t ht with hb | hb
      · exact hr.1 hb
      · exact hr.2 (hsub12 _ (stage1_fold_mark bn bs ig tags initTState t ht hp hb))
    · rintro ⟨hq, hr⟩
      simp only [nameEligibleB, Bool.and_eq_true, Bool.not_eq_true', beq_eq_false_iff_ne,
        decide_eq_false_iff_not] at hq
      rw [decide_eq_true_eq] at hr
      refine hr.2 ?_
      rw [runStages_def]
      exact stage2_fold_mark bn ig tags _ t ht hq.1.1 hq.2
  have h3 := countP_three_le_length (stashMatchedB bs)
    (nameEligibleB bn (tags.foldl (stage1Step bn bs ig) initTState).matched)
    (fun t => decide (t.name ≠ "" ∧ pyLower t.name ∉ (runStages bn bs ig tags).matched))
    tags hdisj
  have hup : updateTagsBatch uo (runStages bn bs ig tags).updates ≤
      (runStages bn bs ig tags).updates.length :=
    updateTagsBatch_le uo (runStages bn bs ig tags).updates
  have hbk : (runStages bn bs ig tags).skipped + (runStages bn bs ig tags).failed +
      (runStages bn bs ig tags).updates.length = bucketCount (runStages bn bs ig tags) := rfl
  omega

/-- Witness for c1_sum_le: a run on one remote tag with a non-blank name
satisfies the hypothesis and the inequality. -/
theorem c1_sum_le_witness :
    (transferTagsGraphql [] [] [] (fun _ => true) (fun _ _ => true)
        [⟨"A", "", "", [], none, none⟩]).created +
      (transferTagsGraphql [] [] [] (fun _ => true) (fun _ _ => true)
        [⟨"A", "", "", [], none, none⟩]).updated +
      (transferTagsGraphql [] [] [] (fun _ => true) (fun _ _ => true)
        [⟨"A", "", "", [], none, none⟩]).skipped +
      (transferTagsGraphql [] [] [] (fun _ => true) (fun _ _ => true)
        [⟨"A", "", "", [], none, none⟩]).failed ≤
      (transferTagsGraphql [] [] [] (fun _ => true) (fun _ _ => true)
        [⟨"A", "", "", [], none, none⟩]).total :=
  c1_sum_le [] [] [] (fun _ => true) (fun _ _ => true)
    [⟨"A", "", "", [], none, none⟩] (by decide)

end StashSync
